import Mathlib

/- Formal model of the song_editor_3a audio-analysis pipeline:
   chord-to-word association, consecutive-segment merging, confidence
   filtering, melody-note emission, source-separation fallback, JSON
   export validation, and the song-data export/import round trip.

   Conventions of the shallow embedding: Python floats are modelled as
   exact rationals (ℚ), Python ints as ℤ, Python `None`-able values as
   `Option`, Python dicts flowing between the functions under study as
   Lean structures carrying the fields those functions read or write.
   String-keyed metadata dictionaries are modelled by their key lists
   when only key membership is inspected. -/

namespace SongEditor

/-! ## Data model: words and chords as seen by the UI association step
    (`src/song_editor/models/song_data.py`, class `Word` / `Chord`).
    Only the fields read or written by `_associate_chords_with_words`
    are carried; `Chord` objects always have `symbol`, `start`, `end`
    attributes, so the `hasattr` guards in the source always succeed. -/

structure Word where
  text : String
  start : ℚ
  end_ : ℚ
  confidence : ℚ
  chord : Option String
  deriving Repr, DecidableEq

structure Chord where
  symbol : String
  start : ℚ
  end_ : ℚ
  confidence : ℚ
  deriving Repr, DecidableEq

/-- Midpoint time of a word: `(word.start + word.end) / 2.0`
    (`main_window.py`, `_associate_chords_with_words`). -/
def wordMid (w : Word) : ℚ := (w.start + w.end_) / 2

/-- `overlap = min(word.end, chord_end) - max(word.start, chord_start)`
    (`main_window.py`, `_associate_chords_with_words`). -/
def overlapAmount (w : Word) (c : Chord) : ℚ :=
  min w.end_ c.end_ - max w.start c.start

/-- One iteration of the inner `for chord in chords` loop of
    `_associate_chords_with_words`: the accumulator is the pair
    `(best_chord, best_overlap)`, initially `(None, 0.0)`. -/
def bestChordStep (w : Word) (acc : Option Chord × ℚ) (c : Chord) : Option Chord × ℚ :=
  if c.start ≤ wordMid w ∧ wordMid w ≤ c.end_ then
    let ov := overlapAmount w c
    if acc.2 < ov then (some c, ov) else acc
  else acc

/-- Per-word body of `_associate_chords_with_words`: run the scan over
    `chords` and, when a best chord was found, set `word.chord` to its
    symbol; otherwise leave the word untouched. -/
def assignChordToWord (chords : List Chord) (w : Word) : Word :=
  match (chords.foldl (bestChordStep w) (none, 0)).1 with
  | some c => { w with chord := some c.symbol }
  | none => w

/-- `_associate_chords_with_words(words, chords)`
    (`src/song_editor/ui/main_window.py`, lines 195-226).  The Python
    method mutates `words` in place and returns early when `chords` is
    empty; the embedding returns the post-call word list. -/
def associate_chords_with_words (words : List Word) (chords : List Chord) : List Word :=
  if chords.isEmpty then words else words.map (assignChordToWord chords)

/-! ## Chord and note segments and the consecutive-segment merge
    (`src/song_editor/core/chord_detector.py`, `_merge_similar_chords`;
    `src/song_editor/core/melody_extractor.py`, `_merge_similar_notes`).
    Segment dictionaries are carried with the fields those functions
    read or write; claim-irrelevant tag fields (`root`, `quality`,
    `bass`, `pitch_name`, `detection_method`) ride along unchanged in
    the source and are omitted from the records. -/

structure ChordSeg where
  symbol : String
  start : ℚ
  end_ : ℚ
  duration : ℚ
  confidence : ℚ
  deriving Repr, DecidableEq

structure NoteSeg where
  pitch_midi : ℤ
  start : ℚ
  end_ : ℚ
  duration : ℚ
  confidence : ℚ
  velocity : ℤ
  deriving Repr, DecidableEq

/-- The `for next_chord in chords[1:]` loop of `_merge_similar_chords`,
    carrying the accumulated `current_chord`.  A chord is appended only
    when `current_chord['duration'] >= min_duration`. -/
def mergeChordsRun (min_duration : ℚ) : ChordSeg → List ChordSeg → List ChordSeg
  | current, [] => if min_duration ≤ current.duration then [current] else []
  | current, next :: rest =>
    if current.symbol = next.symbol ∧ |next.start - current.end_| < 1/10 then
      mergeChordsRun min_duration
        { current with
          end_ := next.end_
          duration := next.end_ - current.start
          confidence := (current.confidence + next.confidence) / 2 } rest
    else
      (if min_duration ≤ current.duration then [current] else []) ++
        mergeChordsRun min_duration next rest

/-- `_merge_similar_chords(chords, min_duration=0.5)`
    (`src/song_editor/core/chord_detector.py`, lines 351-378). -/
def merge_similar_chords (chords : List ChordSeg) (min_duration : ℚ) : List ChordSeg :=
  match chords with
  | [] => []
  | c :: rest => mergeChordsRun min_duration c rest

/-- The `for next_note in notes[1:]` loop of `_merge_similar_notes`.
    Every accumulated note is appended (no duration filter here);
    merged velocity uses Python floor division `//`, i.e. `Int.fdiv`. -/
def mergeNotesRun (max_gap : ℚ) : NoteSeg → List NoteSeg → List NoteSeg
  | current, [] => [current]
  | current, next :: rest =>
    if current.pitch_midi = next.pitch_midi ∧ |next.start - current.end_| < max_gap then
      mergeNotesRun max_gap
        { current with
          end_ := next.end_
          duration := next.end_ - current.start
          confidence := (current.confidence + next.confidence) / 2
          velocity := Int.fdiv (current.velocity + next.velocity) 2 } rest
    else current :: mergeNotesRun max_gap next rest

/-- `_merge_similar_notes(notes, max_gap=0.1)`
    (`src/song_editor/core/melody_extractor.py`, lines 216-242). -/
def merge_similar_notes (notes : List NoteSeg) (max_gap : ℚ) : List NoteSeg :=
  match notes with
  | [] => []
  | n :: rest => mergeNotesRun max_gap n rest

/-- The non-overlap invariant of spec §8.2:
    `segments[i].end ≤ segments[i+1].start` for all consecutive `i`. -/
def chordsNonOverlapping : List ChordSeg → Prop
  | [] => True
  | [_] => True
  | a :: b :: t => a.end_ ≤ b.start ∧ chordsNonOverlapping (b :: t)

instance : ∀ l, Decidable (chordsNonOverlapping l)
  | [] => isTrue trivial
  | [_] => isTrue trivial
  | _ :: b :: t =>
    have : Decidable (chordsNonOverlapping (b :: t)) := instDecidableChordsNonOverlapping (b :: t)
    instDecidableAnd

def notesNonOverlapping : List NoteSeg → Prop
  | [] => True
  | [_] => True
  | a :: b :: t => a.end_ ≤ b.start ∧ notesNonOverlapping (b :: t)

instance : ∀ l, Decidable (notesNonOverlapping l)
  | [] => isTrue trivial
  | [_] => isTrue trivial
  | _ :: b :: t =>
    have : Decidable (notesNonOverlapping (b :: t)) := instDecidableNotesNonOverlapping (b :: t)
    instDecidableAnd

/-! ## Chromagram chord detection, frame-filter stage
    (`src/song_editor/core/chord_detector.py`, `_detect_chords_chromagram`,
    lines 167-201).  The chromagram and template-correlation computation
    is abstracted into the per-frame input `(best_chord, confidence)`:
    for each analysis frame the source computes `best_chord` by argmax
    correlation and `confidence = clamp((corr+1)/2, 0, 1)`, neither of
    which depends on `min_confidence`.  With
    `hop_length = int(window_size * sample_rate)` the frame time of
    frame `i` is `i * window_size` (exact when `window_size *
    sample_rate` is an integer).  A frame yields a chord segment
    `[t, t + window_size]` iff its confidence is ≥ `min_confidence`. -/

/-- The `for i, frame_time in enumerate(frame_times)` loop, carrying
    the running frame index `i`. -/
def detectFrames (min_confidence window_size : ℚ) : ℕ → List (String × ℚ) → List ChordSeg
  | _, [] => []
  | i, (sym, conf) :: rest =>
    (if min_confidence ≤ conf then
      [⟨sym, (i : ℚ) * window_size, (i : ℚ) * window_size + window_size, window_size, conf⟩]
    else []) ++ detectFrames min_confidence window_size (i + 1) rest

def detect_chords_chromagram (frames : List (String × ℚ)) (min_confidence window_size : ℚ) :
    List ChordSeg :=
  detectFrames min_confidence window_size 0 frames

/-- The chromagram branch of `ChordDetector.detect` (lines 380-410):
    frame filtering followed by `_merge_similar_chords`. -/
def detectChromagramPipeline (frames : List (String × ℚ))
    (min_confidence window_size min_duration : ℚ) : List ChordSeg :=
  merge_similar_chords (detect_chords_chromagram frames min_confidence window_size) min_duration

/-! ## Melody extraction
    (`src/song_editor/core/melody_extractor.py`).  Python `int()` on a
    non-negative float truncates toward zero; on exact rationals this is
    `q.num / q.den` with `Int` T-division. -/

/-- Python `int()` applied to an exact rational: truncation toward zero. -/
def pyInt (q : ℚ) : ℤ := if 0 ≤ q then ⌊q⌋ else -⌊-q⌋

structure MelodyCfg where
  min_pitch : ℤ
  max_pitch : ℤ
  min_note_duration : ℚ
  min_confidence : ℚ
  deriving Repr, DecidableEq

/-- `MelodyExtractor.__init__` defaults: `min_confidence=0.5`,
    `min_note_duration=0.1`, `min_pitch=21`, `max_pitch=108`. -/
def defaultMelodyCfg : MelodyCfg := ⟨21, 108, 1/10, 1/2⟩

/-- One `note_event` tuple `(start_time, end_time, pitch, amplitude)`
    returned by the Basic Pitch engine. -/
structure NoteEvent where
  start : ℚ
  end_ : ℚ
  pitch : ℤ
  amplitude : ℚ
  deriving Repr, DecidableEq

/-- The `for note_event in note_events` loop of
    `_extract_melody_basic_pitch` (`melody_extractor.py`, lines 79-107):
    pitch-range filter, duration filter,
    `confidence = min(1.0, amplitude / 0.5)`, confidence filter, and
    `velocity = int(amplitude * 127)`. -/
def extract_melody_basic_pitch (cfg : MelodyCfg) (events : List NoteEvent) : List NoteSeg :=
  events.filterMap fun e =>
    if cfg.min_pitch ≤ e.pitch ∧ e.pitch ≤ cfg.max_pitch then
      if cfg.min_note_duration ≤ e.end_ - e.start then
        let confidence := min 1 (e.amplitude / (1/2))
        if cfg.min_confidence ≤ confidence then
          some ⟨e.pitch, e.start, e.end_, e.end_ - e.start, confidence, pyInt (e.amplitude * 127)⟩
        else none
      else none
    else none

/-- The open note the CREPE loop is building: the fields set when a
    note starts (`pitch_midi`, `start`, `confidence`); `confidence` is
    recorded at the start frame and never updated while the note runs. -/
structure CrepeCur where
  pitch_midi : ℤ
  start : ℚ
  confidence : ℚ
  deriving Repr, DecidableEq

/-- Closing the current CREPE note at time `t`: emit it iff its
    duration reaches `min_note_duration`, with
    `velocity = int(confidence * 127)`. -/
def crepeClose (cfg : MelodyCfg) (c : CrepeCur) (t : ℚ) : List NoteSeg :=
  if cfg.min_note_duration ≤ t - c.start then
    [⟨c.pitch_midi, c.start, t, t - c.start, c.confidence, pyInt (c.confidence * 127)⟩]
  else []

/-- The `for i, (t, midi_note, conf) in enumerate(...)` loop of
    `_extract_melody_crepe` (`melody_extractor.py`, lines 154-202) over
    the per-frame `(time, midi_note, confidence)` triples (the
    frequency→MIDI conversion and confidence masking upstream of the
    loop are frame-local float operations abstracted into the input).
    `tLast` is `time[-1]`, used to flush the final open note. -/
def crepeLoop (cfg : MelodyCfg) (tLast : ℚ) :
    Option CrepeCur → List (ℚ × ℤ × ℚ) → List NoteSeg
  | cur, [] =>
    match cur with
    | some c => crepeClose cfg c tLast
    | none => []
  | cur, (t, midi, conf) :: rest =>
    if 0 < midi ∧ cfg.min_confidence ≤ conf then
      match cur with
      | none => crepeLoop cfg tLast (some ⟨midi, t, conf⟩) rest
      | some c =>
        if midi ≠ c.pitch_midi then
          crepeClose cfg c t ++ crepeLoop cfg tLast (some ⟨midi, t, conf⟩) rest
        else crepeLoop cfg tLast cur rest
    else
      match cur with
      | some c => crepeClose cfg c t ++ crepeLoop cfg tLast none rest
      | none => crepeLoop cfg tLast none rest

/-- `_extract_melody_crepe`, note-event reconstruction over the frame
    sequence; the flush time is the last frame's time (0 for an empty
    frame list, in which case no note is open anyway). -/
def extract_melody_crepe (cfg : MelodyCfg) (frames : List (ℚ × ℤ × ℚ)) : List NoteSeg :=
  crepeLoop cfg ((frames.map fun p => p.1).getLastD 0) none frames

/-! ## Source separation fallback
    (`src/song_editor/core/audio_processor.py`, `separate_sources`,
    lines 251-290).  Audio buffers are sample lists; `use_demucs`
    embeds `self.use_demucs and self.separator`; the Demucs engine call
    (file I/O plus `separate_file`) is the `engine` argument, an
    `Except` capturing either the converted stem dictionary or the
    raised exception's message. -/

def separate_sources (audio : List ℚ) (use_demucs : Bool)
    (engine : Except String (List (String × List ℚ))) : List (String × List ℚ) :=
  if use_demucs then
    match engine with
    | .ok sources => sources
    | .error _ => [("vocals", audio), ("accompaniment", audio)]
  else
    [("vocals", audio), ("accompaniment", audio)]

/-! ## JSON exporter schema validation
    (`src/song_editor/export/json_exporter.py`, `_validate_song_data`
    lines 33-84 and `export` lines 242-264).  The song-data dictionary
    is modelled with the fields validation reads or writes: a word dict
    always carries `text`/`start`/`end`/`confidence` here (the
    key-presence checks are encoded by the typing), the metadata dict
    by its key list, and the remaining document entries
    (chords/notes/segments/audio_analysis/processing_info) as opaque
    payloads that validation never touches. -/

namespace JsonExporter

structure EWord where
  text : String
  start : ℚ
  end_ : ℚ
  confidence : ℚ
  chord : Option String
  deriving Repr, DecidableEq

structure ESong where
  metadataKeys : List String
  words : List EWord
  chords : List ChordSeg
  notes : List NoteSeg
  deriving Repr, DecidableEq

/-- The required-key checks of `_validate_song_data`: the word list is
    present by typing; the metadata dict must contain `version`,
    `created_at` and `source_audio`. -/
def metadataOk (d : ESong) : Bool :=
  ["version", "created_at", "source_audio"].all fun k => d.metadataKeys.contains k

/-- The per-word timing repair as it acts on one word that the scan
    reaches: `start == end` gets `end` bumped to `start + 0.01`. -/
def repairWord (w : EWord) : EWord :=
  if w.start = w.end_ then { w with end_ := w.start + 1/100 } else w

/-- The `for i, word in enumerate(words)` loop of `_validate_song_data`:
    returns the validation verdict together with the post-loop word
    list.  On `start > end` the loop exits with `False` at once, so
    later words are left untouched; on `start == end` the word's `end`
    is overwritten in place with `start + 0.01`. -/
def validateWords : List EWord → Bool × List EWord
  | [] => (true, [])
  | w :: rest =>
    if w.end_ < w.start then (false, w :: rest)
    else if w.start = w.end_ then
      let r := validateWords rest
      (r.1, { w with end_ := w.start + 1/100 } :: r.2)
    else
      let r := validateWords rest
      (r.1, w :: r.2)

/-- `_validate_song_data(song_data)`: verdict plus the post-call state
    of the caller's document (the word mutations happen in place on the
    caller's dictionaries). -/
def validate_song_data (d : ESong) : Bool × ESong :=
  if metadataOk d then
    let r := validateWords d.words
    (r.1, { d with words := r.2 })
  else (false, d)

/-- `JSONExporter.export(song_data, output_path)` as it acts on the
    caller's document: when `validate_schema` is set the document is
    validated (mutating it in place as above) and export aborts on a
    `False` verdict; the subsequent `_prepare_export_data` /
    `_add_export_metadata` / file write operate on fresh copies and
    never touch the caller's document, and the file write is outside
    the state model.  Returns (success, post-call caller document).
    (`export` is a Lean keyword, hence the trailing underscore.) -/
def export_ (validate_schema : Bool) (d : ESong) : Bool × ESong :=
  if validate_schema then
    let r := validate_song_data d
    (r.1, r.2)
  else (true, d)

end JsonExporter

/-! ## Song-data importer/exporter round trip
    (`src/song_editor/models/song_data_importer.py`).  `WordRow` is the
    dataclass of `src/song_editor/models/lyrics.py`; `ChordData`,
    `NoteData`, `SegmentData`, `SongData` are the importer dataclasses.
    The JSON file contents are modelled structurally (`WordDict` etc.):
    optional JSON keys are `Option` fields, metadata is carried as a
    key-value list whose keys validation inspects.  Python truthiness
    of `Optional[str]` / `Optional[int]` (used by the `if x:` guards in
    `export_song_data`) is `some` of a non-empty string / non-zero
    integer. -/

namespace Importer

def pyTruthyStr : Option String → Bool
  | some s => s ≠ ""
  | none => false

def pyTruthyInt : Option ℤ → Bool
  | some v => v ≠ 0
  | none => false

structure WordRow where
  text : String
  start : ℚ
  end_ : ℚ
  confidence : ℚ
  chord : Option String
  alt_text : Option String
  alt_chord : Option String
  alt_start : Option ℚ
  alt_end : Option ℚ
  line_break : Bool
  deriving Repr, DecidableEq

structure ChordData where
  symbol : String
  root : String
  quality : String
  bass : Option String
  start : ℚ
  end_ : ℚ
  confidence : ℚ
  deriving Repr, DecidableEq

structure NoteData where
  pitch_midi : ℤ
  pitch_name : Option String
  start : ℚ
  end_ : ℚ
  velocity : Option ℤ
  confidence : ℚ
  deriving Repr, DecidableEq

structure SegmentData where
  type : String
  label : Option String
  start : ℚ
  end_ : ℚ
  confidence : ℚ
  deriving Repr, DecidableEq

structure SongData where
  metadata : List (String × String)
  words : List WordRow
  chords : List ChordData
  notes : List NoteData
  segments : List SegmentData
  deriving Repr, DecidableEq

/-- One entry of a word's `alternatives` array. -/
structure AltDict where
  text : String
  confidence : ℚ
  deriving Repr, DecidableEq

/-- The nested chord dict `export_song_data` writes under a word's
    `chord` key (built from the chord symbol string). -/
structure WordChordDict where
  symbol : String
  root : String
  quality : String
  bass : Option String
  confidence : ℚ
  deriving Repr, DecidableEq

structure WordDict where
  text : String
  start : ℚ
  end_ : ℚ
  confidence : ℚ
  chord : Option WordChordDict
  alternatives : Option (List AltDict)
  deriving Repr, DecidableEq

structure ChordDict where
  symbol : String
  root : String
  quality : String
  bass : Option String
  start : ℚ
  end_ : ℚ
  confidence : ℚ
  deriving Repr, DecidableEq

structure NoteDict where
  pitch_midi : ℤ
  start : ℚ
  end_ : ℚ
  confidence : ℚ
  pitch_name : Option String
  velocity : Option ℤ
  deriving Repr, DecidableEq

structure SegmentDict where
  type : String
  start : ℚ
  end_ : ℚ
  confidence : ℚ
  label : Option String
  deriving Repr, DecidableEq

/-- The JSON document structure written and read by
    `export_song_data` / `import_song_data`. -/
structure SongDataFile where
  metadata : List (String × String)
  words : List WordDict
  chords : List ChordDict
  notes : List NoteDict
  segments : List SegmentDict
  deriving Repr, DecidableEq

/-- The word branch of `export_song_data` (lines 254-344): the chord
    key is written only when `word.chord` is truthy, with
    `root = chord[0]` and `quality = chord[1:] or 'maj'`;
    `alternatives` is never written. -/
def exportWord (w : WordRow) : WordDict :=
  { text := w.text
    start := w.start
    end_ := w.end_
    confidence := w.confidence
    chord :=
      if pyTruthyStr w.chord then
        let sym := w.chord.getD ""
        some ⟨sym, sym.take 1, if 1 < sym.length then sym.drop 1 else "maj", none, 1⟩
      else none
    alternatives := none }

def exportChord (c : ChordData) : ChordDict :=
  ⟨c.symbol, c.root, c.quality, c.bass, c.start, c.end_, c.confidence⟩

/-- The note branch of `export_song_data`: `pitch_name` and `velocity`
    are written only when truthy (`None`, `''` and `0` are dropped). -/
def exportNote (n : NoteData) : NoteDict :=
  { pitch_midi := n.pitch_midi
    start := n.start
    end_ := n.end_
    confidence := n.confidence
    pitch_name := if pyTruthyStr n.pitch_name then n.pitch_name else none
    velocity := if pyTruthyInt n.velocity then n.velocity else none }

def exportSegment (s : SegmentData) : SegmentDict :=
  { type := s.type
    start := s.start
    end_ := s.end_
    confidence := s.confidence
    label := if pyTruthyStr s.label then s.label else none }

/-- `export_song_data(song_data, output_path)` (lines 254-344), as the
    JSON document it writes; the file write itself is outside the state
    model. -/
def export_song_data (sd : SongData) : SongDataFile :=
  { metadata := sd.metadata
    words := sd.words.map exportWord
    chords := sd.chords.map exportChord
    notes := sd.notes.map exportNote
    segments := sd.segments.map exportSegment }

/-- The `required_metadata` key check of
    `SongDataImporter.validate_song_data`. -/
def hasRequiredMetadata (m : List (String × String)) : Bool :=
  ["version", "created_at", "source_audio"].all fun k => m.any fun p => p.1 = k

/-- `SongDataImporter.validate_song_data` on a structurally well-typed
    document: the `'metadata' in data` / `'words' in data` checks and
    all `isinstance` checks hold by typing, leaving the required
    metadata key check. -/
def validateFile (d : SongDataFile) : Bool :=
  hasRequiredMetadata d.metadata

/-- Python `max(alternatives, key=lambda x: x.get('confidence', 0.0))`:
    the first element with maximal key. -/
def pyMaxByConfidence (a : AltDict) (rest : List AltDict) : AltDict :=
  rest.foldl (fun best x => if best.confidence < x.confidence then x else best) a

/-- `convert_to_word_rows` (lines 164-192): `chord` is always reset to
    `None`, `alt_text` comes from the best alternative when the
    `alternatives` key is present and truthy, and the alternative
    timing is the word's own timing. -/
def convertToWordRow (w : WordDict) : WordRow :=
  { text := w.text
    start := w.start
    end_ := w.end_
    confidence := w.confidence
    chord := none
    alt_text :=
      match w.alternatives with
      | some (a :: rest) => some (pyMaxByConfidence a rest).text
      | _ => none
    alt_chord := none
    alt_start := some w.start
    alt_end := some w.end_
    line_break := false }

/-- `parse_chord_data` (lines 128-142): all keys present here, defaults
    unused. -/
def parse_chord_data (c : ChordDict) : ChordData :=
  ⟨c.symbol, c.root, c.quality, c.bass, c.start, c.end_, c.confidence⟩

/-- `parse_note_data` (lines 144-152). -/
def parse_note_data (n : NoteDict) : NoteData :=
  ⟨n.pitch_midi, n.pitch_name, n.start, n.end_, n.velocity, n.confidence⟩

/-- `parse_segment_data` (lines 154-162). -/
def parse_segment_data (s : SegmentDict) : SegmentData :=
  ⟨s.type, s.label, s.start, s.end_, s.confidence⟩

/-- `import_song_data(song_data_path)` (lines 193-252) on an
    already-parsed JSON document: validation failure yields `None`
    (the file-system and JSON-decode error paths are outside the
    model). -/
def import_song_data (d : SongDataFile) : Option SongData :=
  if validateFile d then
    some
      { metadata := d.metadata
        words := d.words.map convertToWordRow
        chords := d.chords.map parse_chord_data
        notes := d.notes.map parse_note_data
        segments := d.segments.map parse_segment_data }
  else none

end Importer

/-- The containment test of the association scan: the chord's
    `[start, end]` interval contains the word's midpoint. -/
def inInt (w : Word) (c : Chord) : Prop :=
  c.start ≤ wordMid w ∧ wordMid w ≤ c.end_

instance (w : Word) (c : Chord) : Decidable (inInt w c) := instDecidableAnd

/-- Time-ordered, non-overlapping chord list (association input):
    each chord ends no later than the next one starts. -/
def chordTimesOrdered : List Chord → Prop
  | [] => True
  | [_] => True
  | a :: b :: t => a.end_ ≤ b.start ∧ chordTimesOrdered (b :: t)

/-! Concrete data used by the counterexamples and witnesses. -/

/-- Word `[0.5, 1.5]`, midpoint `1.0`. -/
def wEx : Word := ⟨"word", 1/2, 3/2, 1, none⟩

/-- Chord `C` on `[0.9, 1.0]`: the first chord containing the midpoint
    of `wEx`, overlapping it by `0.1`. -/
def cEx1 : Chord := ⟨"C", 9/10, 1, 1⟩

/-- Chord `D` on `[1.0, 2.0]`: also contains the midpoint of `wEx`,
    overlapping it by `0.5`. -/
def cEx2 : Chord := ⟨"D", 1, 2, 1⟩

/-- Per-frame detection input `[("C",0.9), ("C",0.3), ("C",0.9)]`: one
    low-confidence frame between two confident frames of the same
    chord. -/
def framesEx : List (String × ℚ) := [("C", 9/10), ("C", 3/10), ("C", 9/10)]

/-- Chord `C` on `[0.5, 1.0]` with confidence `0.8`. -/
def mcEx1 : ChordSeg := ⟨"C", 1/2, 1, 1/2, 4/5⟩

/-- Chord `C` on `[1.1, 1.6]` with confidence `0.6`: same symbol as
    `mcEx1` and a gap of exactly `0.1` after it (a gap on which binary
    floating point agrees: `1.1 - 1.0` rounds up, so the strict `< 0.1`
    test also fails under floats). -/
def mcEx2 : ChordSeg := ⟨"C", 11/10, 8/5, 1/2, 3/5⟩

/-- Chord `A` on `[0, 10]`: an out-of-order input segment. -/
def ocEx1 : ChordSeg := ⟨"A", 0, 10, 10, 1⟩

/-- Chord `B` on `[2, 3]`, overlapped by `ocEx1`. -/
def ocEx2 : ChordSeg := ⟨"B", 2, 3, 1, 1⟩

/-- An exporter-level document with required metadata and a single
    zero-duration word (`start = end = 1`). -/
def dEx : JsonExporter.ESong :=
  ⟨["version", "created_at", "source_audio"], [⟨"a", 1, 1, 1, none⟩], [], []⟩

/-- An exporter-level document with a word of positive duration. -/
def dEx2 : JsonExporter.ESong :=
  ⟨["version", "created_at", "source_audio"], [⟨"b", 0, 1, 1, none⟩], [], []⟩

/-- An importer-level document whose single word carries an associated
    chord symbol `"C"`. -/
def sdCex : Importer.SongData :=
  ⟨[("version", "3"), ("created_at", "t"), ("source_audio", "a")],
   [⟨"hello", 0, 1, 1, some "C", none, none, some 0, some 1, false⟩], [], [], []⟩

/-- An importer-level document with no word-level chord/alternative
    annotations, one chord and one note. -/
def sdW : Importer.SongData :=
  ⟨[("version", "3"), ("created_at", "t"), ("source_audio", "a")],
   [⟨"hello", 0, 1, 1, none, none, none, some 0, some 1, false⟩],
   [⟨"C", "C", "maj", none, 0, 1, 1⟩],
   [⟨60, some "C4", 0, 1, some 64, 1⟩], []⟩

/-- A Basic Pitch note event at amplitude `0.5` (the normalization
    ceiling): `(start 0, end 1, pitch 60, amplitude 0.5)`. -/
def evEx : NoteEvent := ⟨0, 1, 60, 1/2⟩

/-- The note the code emits for `evEx`: confidence `1.0`, velocity
    `int(0.5 * 127) = 63`. -/
def noteEvEx : NoteSeg := ⟨60, 0, 1, 1, 1, 63⟩

/-! ## Theorems -/

/-- C7: Source-separation passthrough fallback — with the separation
    engine unavailable or disabled (`use_demucs = false`), or on any
    engine failure, `separate_sources` returns vocals and accompaniment
    both exactly equal to the input buffer, and the call is total (the
    fallback result, never a raised failure). -/
theorem separate_sources_passthrough (audio : List ℚ) (b : Bool)
    (e : Except String (List (String × List ℚ))) (msg : String) :
    separate_sources audio false e = [("vocals", audio), ("accompaniment", audio)] ∧
    separate_sources audio b (.error msg) = [("vocals", audio), ("accompaniment", audio)] := by
  refine ⟨by simp [separate_sources], ?_⟩
  cases b <;> simp [separate_sources]

/-- `bestChordStep` only reads the word's `start` and `end_` fields, so
    overwriting the word's `chord` does not change the chord scan. -/
theorem bestChordStep_set_chord (w : Word) (s : Option String) :
    bestChordStep { w with chord := s } = bestChordStep w := rfl

/-- Assigning a chord to an already-assigned word re-derives the same
    best chord. -/
theorem assignChordToWord_idem (chords : List Chord) (w : Word) :
    assignChordToWord chords (assignChordToWord chords w) = assignChordToWord chords w := by
  unfold assignChordToWord
  cases h : (chords.foldl (bestChordStep w) (none, 0)).1 with
  | none => simp [h]
  | some c =>
    have hsame :
        chords.foldl (bestChordStep { w with chord := some c.symbol }) ((none : Option Chord), (0 : ℚ)) =
          chords.foldl (bestChordStep w) ((none : Option Chord), (0 : ℚ)) := by
      rw [bestChordStep_set_chord]
    simp only [h, hsame]

/-- C2: Idempotence of association — running
    `_associate_chords_with_words` twice with unchanged inputs yields
    exactly the same word list as running it once. -/
theorem assoc_idempotent (words : List Word) (chords : List Chord) :
    associate_chords_with_words (associate_chords_with_words words chords) chords =
      associate_chords_with_words words chords := by
  unfold associate_chords_with_words
  by_cases h : chords.isEmpty
  · simp [h]
  · simp only [h, if_neg, Bool.false_eq_true, not_false_eq_true, List.map_map]
    apply List.map_congr_left
    intro w _
    exact assignChordToWord_idem chords w

/-- The association scan step, written as a single conditional. -/
theorem bestChordStep_eq (w : Word) (b : Option Chord) (v : ℚ) (c : Chord) :
    bestChordStep w (b, v) c =
      if inInt w c ∧ v < overlapAmount w c then (some c, overlapAmount w c) else (b, v) := by
  unfold bestChordStep inInt
  by_cases h1 : c.start ≤ wordMid w ∧ wordMid w ≤ c.end_
  · by_cases h2 : v < overlapAmount w c
    · simp [h1, h2, overlapAmount]
    · simp [h1, h2, overlapAmount]
  · simp [h1]

/-- When no chord in `l` beats the running best overlap `v`, the scan
    leaves the accumulator unchanged. -/
theorem bestChord_foldl_fix (w : Word) (l : List Chord) :
    ∀ (b : Option Chord) (v : ℚ),
      (∀ c ∈ l, inInt w c → overlapAmount w c ≤ v) →
      l.foldl (bestChordStep w) (b, v) = (b, v) := by
  induction l with
  | nil => intro b v _; rfl
  | cons c t ih =>
    intro b v h
    have hstep : bestChordStep w (b, v) c = (b, v) := by
      rw [bestChordStep_eq]
      by_cases hin : inInt w c
      · have hle := h c (List.mem_cons_self c t) hin
        simp [hin, not_lt.mpr hle]
      · simp [hin]
    rw [List.foldl_cons, hstep]
    exact ih b v fun c' hc' => h c' (List.mem_cons_of_mem c hc')

/-- When some chord in `l` beats the running best overlap `v`, the scan
    returns the first chord achieving the maximal overlap among the
    midpoint-containing chords. -/
theorem bestChord_foldl_argmax (w : Word) (l : List Chord) :
    ∀ (b : Option Chord) (v : ℚ),
      (∃ c ∈ l, inInt w c ∧ v < overlapAmount w c) →
      ∃ l1 c₀ l2, l = l1 ++ c₀ :: l2 ∧ inInt w c₀ ∧ v < overlapAmount w c₀ ∧
        (∀ c ∈ l, inInt w c → overlapAmount w c ≤ overlapAmount w c₀) ∧
        (∀ c ∈ l1, inInt w c → overlapAmount w c < overlapAmount w c₀) ∧
        l.foldl (bestChordStep w) (b, v) = (some c₀, overlapAmount w c₀) := by
  induction l with
  | nil =>
    rintro b v ⟨c, hc, _⟩
    exact absurd hc (List.not_mem_nil c)
  | cons c t ih =>
    intro b v hex
    by_cases hcand : inInt w c ∧ v < overlapAmount w c
    · have hstep : bestChordStep w (b, v) c = (some c, overlapAmount w c) := by
        rw [bestChordStep_eq, if_pos hcand]
      by_cases hbeat : ∃ c' ∈ t, inInt w c' ∧ overlapAmount w c < overlapAmount w c'
      · obtain ⟨l1, c₀, l2, ht, hin₀, hlt₀, hmax, hpred, hfold⟩ :=
          ih (some c) (overlapAmount w c) hbeat
        refine ⟨c :: l1, c₀, l2, by simp [ht], hin₀, lt_trans hcand.2 hlt₀, ?_, ?_, ?_⟩
        · intro c' hc' hin'
          rcases List.mem_cons.mp hc' with rfl | hmem
          · exact le_of_lt hlt₀
          · exact hmax c' hmem hin'
        · intro c' hc' hin'
          rcases List.mem_cons.mp hc' with rfl | hmem
          · exact hlt₀
          · exact hpred c' hmem hin'
        · rw [List.foldl_cons, hstep, hfold]
      · push_neg at hbeat
        have hfix := bestChord_foldl_fix w t (some c) (overlapAmount w c)
          fun c' hc' hin' => hbeat c' hc' hin'
        refine ⟨[], c, t, rfl, hcand.1, hcand.2, ?_, ?_, ?_⟩
        · intro c' hc' hin'
          rcases List.mem_cons.mp hc' with rfl | hmem
          · exact le_refl _
          · exact hbeat c' hmem hin'
        · intro c' hc'
          exact absurd hc' (List.not_mem_nil c')
        · rw [List.foldl_cons, hstep, hfix]
    · have hstep : bestChordStep w (b, v) c = (b, v) := by
        rw [bestChordStep_eq, if_neg hcand]
      have hex' : ∃ c' ∈ t, inInt w c' ∧ v < overlapAmount w c' := by
        obtain ⟨c', hc', h1, h2⟩ := hex
        rcases List.mem_cons.mp hc' with rfl | hmem
        · exact absurd ⟨h1, h2⟩ hcand
        · exact ⟨c', hmem, h1, h2⟩
      obtain ⟨l1, c₀, l2, ht, hin₀, hlt₀, hmax, hpred, hfold⟩ := ih b v hex'
      refine ⟨c :: l1, c₀, l2, by simp [ht], hin₀, hlt₀, ?_, ?_, ?_⟩
      · intro c' hc' hin'
        rcases List.mem_cons.mp hc' with rfl | hmem
        · by_cases hv : v < overlapAmount w c'
          · exact absurd ⟨hin', hv⟩ hcand
          · exact le_of_lt (lt_of_le_of_lt (not_lt.mp hv) hlt₀)
        · exact hmax c' hmem hin'
      · intro c' hc' hin'
        rcases List.mem_cons.mp hc' with rfl | hmem
        · by_cases hv : v < overlapAmount w c'
          · exact absurd ⟨hin', hv⟩ hcand
          · exact lt_of_le_of_lt (not_lt.mp hv) hlt₀
        · exact hpred c' hmem hin'
      · rw [List.foldl_cons, hstep, hfold]

/-- C1 counterexample: with word `[0.5, 1.5]` (midpoint `1.0`) and the
    time-ordered, non-overlapping chords `C = [0.9, 1.0]`,
    `D = [1.0, 2.0]`, the first chord whose interval contains the
    midpoint is `C`, yet the code attaches `D` (the chord with the
    larger overlap), so the claimed first-containing-chord rule is
    false. -/
theorem assoc_best_overlap_not_first_cex :
    (associate_chords_with_words [wEx] [cEx1, cEx2]).map Word.chord = [some "D"] ∧
    cEx1.start ≤ wordMid wEx ∧ wordMid wEx ≤ cEx1.end_ ∧
    cEx1.end_ ≤ cEx2.start ∧ cEx1.symbol ≠ cEx2.symbol := by
  refine ⟨?_, by norm_num [cEx1, wEx, wordMid], by norm_num [cEx1, wEx, wordMid],
    by norm_num [cEx1, cEx2], by simp [cEx1, cEx2]⟩
  norm_num [associate_chords_with_words, assignChordToWord, bestChordStep,
    wordMid, overlapAmount, wEx, cEx1, cEx2, min_def, max_def]

/-- C1 (amended): for every word list and every time-ordered,
    non-overlapping chord list, `_associate_chords_with_words` attaches
    to each word the symbol of the chord whose `[start, end]` interval
    contains the word's midpoint and whose overlap with the word's
    interval is positive and maximal among the midpoint-containing
    chords (the earliest such chord on ties), and leaves `word.chord`
    unchanged when no chord's interval contains the midpoint with
    positive overlap. -/
theorem assoc_attaches_max_overlap_chord (words : List Word) (chords : List Chord)
    (horder : chordTimesOrdered chords) :
    associate_chords_with_words words chords = words.map (assignChordToWord chords) ∧
    ∀ w : Word,
      ((∀ c ∈ chords, inInt w c → overlapAmount w c ≤ 0) →
        assignChordToWord chords w = w) ∧
      ((∃ c ∈ chords, inInt w c ∧ 0 < overlapAmount w c) →
        ∃ l1 c₀ l2, chords = l1 ++ c₀ :: l2 ∧ inInt w c₀ ∧ 0 < overlapAmount w c₀ ∧
          (∀ c ∈ chords, inInt w c → overlapAmount w c ≤ overlapAmount w c₀) ∧
          (∀ c ∈ l1, inInt w c → overlapAmount w c < overlapAmount w c₀) ∧
          assignChordToWord chords w = { w with chord := some c₀.symbol }) := by
  refine ⟨?_, ?_⟩
  · unfold associate_chords_with_words
    by_cases h : chords.isEmpty
    · have hnil : chords = [] := List.isEmpty_iff.mp h
      subst hnil
      have hid : ∀ w ∈ words, assignChordToWord [] w = id w := fun _ _ => rfl
      rw [List.map_congr_left hid, List.map_id]
      simp
    · simp [h]
  · intro w
    constructor
    · intro hnone
      unfold assignChordToWord
      rw [bestChord_foldl_fix w chords none 0 hnone]
    · intro hex
      obtain ⟨l1, c₀, l2, ht, hin₀, hlt₀, hmax, hpred, hfold⟩ :=
        bestChord_foldl_argmax w chords none 0 hex
      refine ⟨l1, c₀, l2, ht, hin₀, hlt₀, hmax, hpred, ?_⟩
      unfold assignChordToWord
      rw [hfold]

/-- C1 witness: the amended theorem applied at a concrete word and a
    concrete singleton chord list. -/
theorem assoc_attaches_max_overlap_chord_witness :
    chordTimesOrdered [cEx2] ∧
    associate_chords_with_words [wEx] [cEx2] = [wEx].map (assignChordToWord [cEx2]) :=
  ⟨trivial, (assoc_attaches_max_overlap_chord [wEx] [cEx2] trivial).1⟩

/-- Unfolding equation of the chord-merge loop on an empty tail. -/
theorem mergeChordsRun_nil (md : ℚ) (cur : ChordSeg) :
    mergeChordsRun md cur [] = if md ≤ cur.duration then [cur] else [] := rfl

/-- Unfolding equation of the chord-merge loop on a non-empty tail. -/
theorem mergeChordsRun_cons (md : ℚ) (cur next : ChordSeg) (rest : List ChordSeg) :
    mergeChordsRun md cur (next :: rest) =
      if cur.symbol = next.symbol ∧ |next.start - cur.end_| < 1/10 then
        mergeChordsRun md ⟨cur.symbol, cur.start, next.end_, next.end_ - cur.start,
          (cur.confidence + next.confidence) / 2⟩ rest
      else (if md ≤ cur.duration then [cur] else []) ++ mergeChordsRun md next rest := rfl

/-- Unfolding equation of the note-merge loop on an empty tail. -/
theorem mergeNotesRun_nil (g : ℚ) (cur : NoteSeg) :
    mergeNotesRun g cur [] = [cur] := rfl

/-- Unfolding equation of the note-merge loop on a non-empty tail. -/
theorem mergeNotesRun_cons (g : ℚ) (cur next : NoteSeg) (rest : List NoteSeg) :
    mergeNotesRun g cur (next :: rest) =
      if cur.pitch_midi = next.pitch_midi ∧ |next.start - cur.end_| < g then
        mergeNotesRun g ⟨cur.pitch_midi, cur.start, next.end_, next.end_ - cur.start,
          (cur.confidence + next.confidence) / 2,
          Int.fdiv (cur.velocity + next.velocity) 2⟩ rest
      else cur :: mergeNotesRun g next rest := rfl

/-- C3 counterexample: two adjacent chords with the same symbol whose
    gap is exactly the tolerance `0.1` are NOT merged by the code
    (`abs(next.start - current.end) < 0.1` is strict), contradicting
    the claimed "gap at most the tolerance" rule. -/
theorem merge_gap_at_tolerance_not_merged_cex :
    mcEx1.symbol = mcEx2.symbol ∧ mcEx2.start - mcEx1.end_ = 1/10 ∧
    merge_similar_chords [mcEx1, mcEx2] 0 = [mcEx1, mcEx2] := by
  have hcond : ¬ (mcEx1.symbol = mcEx2.symbol ∧ |mcEx2.start - mcEx1.end_| < 1/10) := by
    rintro ⟨-, hlt⟩
    rw [abs_lt] at hlt
    norm_num [mcEx1, mcEx2] at hlt
  refine ⟨rfl, by norm_num [mcEx1, mcEx2], ?_⟩
  rw [show merge_similar_chords [mcEx1, mcEx2] 0 = mergeChordsRun 0 mcEx1 [mcEx2] from rfl,
    mergeChordsRun_cons, if_neg hcond, mergeChordsRun_nil,
    if_pos (by norm_num [mcEx1] : (0:ℚ) ≤ mcEx1.duration),
    if_pos (by norm_num [mcEx2] : (0:ℚ) ≤ mcEx2.duration)]
  rfl

/-- C3 (amended): two adjacent segments are merged if and only if they
    have the same symbol (chords) or the same MIDI pitch (notes) AND
    the absolute gap between the end of the first and the start of the
    second is STRICTLY below the tolerance (`0.1`s for chords, the
    `max_gap` parameter, default `0.1`s, for notes); the merged chord
    confidence is the arithmetic average of the two confidences (for
    notes also the floor-halved velocity sum). -/
theorem merge_pair_rule_strict_gap (c1 c2 : ChordSeg) (n1 n2 : NoteSeg) (md g : ℚ)
    (h1 : md ≤ c1.duration) (h2 : md ≤ c2.duration) (h3 : md ≤ c2.end_ - c1.start) :
    ((c1.symbol = c2.symbol ∧ |c2.start - c1.end_| < 1/10) →
      merge_similar_chords [c1, c2] md =
        [⟨c1.symbol, c1.start, c2.end_, c2.end_ - c1.start,
          (c1.confidence + c2.confidence) / 2⟩]) ∧
    (¬ (c1.symbol = c2.symbol ∧ |c2.start - c1.end_| < 1/10) →
      merge_similar_chords [c1, c2] md = [c1, c2]) ∧
    ((n1.pitch_midi = n2.pitch_midi ∧ |n2.start - n1.end_| < g) →
      merge_similar_notes [n1, n2] g =
        [⟨n1.pitch_midi, n1.start, n2.end_, n2.end_ - n1.start,
          (n1.confidence + n2.confidence) / 2,
          Int.fdiv (n1.velocity + n2.velocity) 2⟩]) ∧
    (¬ (n1.pitch_midi = n2.pitch_midi ∧ |n2.start - n1.end_| < g) →
      merge_similar_notes [n1, n2] g = [n1, n2]) := by
  refine ⟨?_, ?_, ?_, ?_⟩
  · intro h
    rw [show merge_similar_chords [c1, c2] md = mergeChordsRun md c1 [c2] from rfl,
      mergeChordsRun_cons, if_pos h, mergeChordsRun_nil, if_pos h3]
  · intro h
    rw [show merge_similar_chords [c1, c2] md = mergeChordsRun md c1 [c2] from rfl,
      mergeChordsRun_cons, if_neg h, mergeChordsRun_nil, if_pos h1, if_pos h2]
    rfl
  · intro h
    rw [show merge_similar_notes [n1, n2] g = mergeNotesRun g n1 [n2] from rfl,
      mergeNotesRun_cons, if_pos h, mergeNotesRun_nil]
  · intro h
    rw [show merge_similar_notes [n1, n2] g = mergeNotesRun g n1 [n2] from rfl,
      mergeNotesRun_cons, if_neg h, mergeNotesRun_nil]

/-- C3 witness: the amended rule applied to the spec's own example,
    chords `("C", 0, 0.5, conf 0.8)` and `("C", 0.52, 1.0, conf 0.6)`,
    which merge into `("C", 0, 1.0, conf 0.7)`. -/
theorem merge_pair_rule_strict_gap_witness :
    merge_similar_chords [⟨"C", 0, 1/2, 1/2, 4/5⟩, ⟨"C", 13/25, 1, 12/25, 3/5⟩] 0 =
      [⟨"C", 0, 1, 1, 7/10⟩] := by
  have h := (merge_pair_rule_strict_gap ⟨"C", 0, 1/2, 1/2, 4/5⟩ ⟨"C", 13/25, 1, 12/25, 3/5⟩
    ⟨60, 0, 1, 1, 1, 64⟩ ⟨60, 0, 1, 1, 1, 64⟩ 0 (1/10)
    (by norm_num) (by norm_num) (by norm_num)).1
    ⟨rfl, by rw [abs_lt]; constructor <;> norm_num⟩
  rw [h]
  norm_num

/-- Prepending a segment that ends before the head of a non-overlapping
    list starts preserves non-overlap. -/
theorem chordsNonOverlapping_cons (a : ChordSeg) (l : List ChordSeg)
    (hl : chordsNonOverlapping l) (ha : ∀ b ∈ l.head?, a.end_ ≤ b.start) :
    chordsNonOverlapping (a :: l) := by
  cases l with
  | nil => trivial
  | cons b t => exact ⟨ha b rfl, hl⟩

theorem notesNonOverlapping_cons (a : NoteSeg) (l : List NoteSeg)
    (hl : notesNonOverlapping l) (ha : ∀ b ∈ l.head?, a.end_ ≤ b.start) :
    notesNonOverlapping (a :: l) := by
  cases l with
  | nil => trivial
  | cons b t => exact ⟨ha b rfl, hl⟩

/-- The chord-merge loop keeps a well-formed, non-overlapping run
    non-overlapping, and every emitted segment starts no earlier than
    the accumulated current segment. -/
theorem mergeChordsRun_ordered (md : ℚ) :
    ∀ (l : List ChordSeg) (cur : ChordSeg),
      (∀ s ∈ cur :: l, s.start ≤ s.end_) →
      chordsNonOverlapping (cur :: l) →
      chordsNonOverlapping (mergeChordsRun md cur l) ∧
      ∀ s ∈ mergeChordsRun md cur l, cur.start ≤ s.start := by
  intro l
  induction l with
  | nil =>
    intro cur _ _
    rw [mergeChordsRun_nil]
    by_cases hd : md ≤ cur.duration
    · rw [if_pos hd]
      exact ⟨trivial, by intro s hs; rw [List.mem_singleton] at hs; subst hs; exact le_refl _⟩
    · rw [if_neg hd]
      exact ⟨trivial, by intro s hs; exact absurd hs (List.not_mem_nil s)⟩
  | cons next rest ih =>
    intro cur hwf hord
    obtain ⟨hord1, hord2⟩ := hord
    by_cases hm : cur.symbol = next.symbol ∧ |next.start - cur.end_| < 1/10
    · rw [mergeChordsRun_cons, if_pos hm]
      have hcs : cur.start ≤ cur.end_ := hwf cur (List.mem_cons_self _ _)
      have hns : next.start ≤ next.end_ := hwf next (List.mem_cons_of_mem _ (List.mem_cons_self _ _))
      have hwf' : ∀ s ∈ (⟨cur.symbol, cur.start, next.end_, next.end_ - cur.start,
          (cur.confidence + next.confidence) / 2⟩ : ChordSeg) :: rest, s.start ≤ s.end_ := by
        intro s hs
        rcases List.mem_cons.mp hs with rfl | hmem
        · exact le_trans hcs (le_trans hord1 hns)
        · exact hwf s (List.mem_cons_of_mem _ (List.mem_cons_of_mem _ hmem))
      have hord' : chordsNonOverlapping ((⟨cur.symbol, cur.start, next.end_,
          next.end_ - cur.start, (cur.confidence + next.confidence) / 2⟩ : ChordSeg) :: rest) := by
        cases rest with
        | nil => trivial
        | cons r t => exact ⟨hord2.1, hord2.2⟩
      exact ih _ hwf' hord'
    · rw [mergeChordsRun_cons, if_neg hm]
      have hcs : cur.start ≤ cur.end_ := hwf cur (List.mem_cons_self _ _)
      have hwf' : ∀ s ∈ next :: rest, s.start ≤ s.end_ := by
        intro s hs
        exact hwf s (List.mem_cons_of_mem _ hs)
      obtain ⟨ihno, ihstart⟩ := ih next hwf' hord2
      have hout : ∀ s ∈ mergeChordsRun md next rest, cur.start ≤ s.start := by
        intro s hs
        exact le_trans hcs (le_trans hord1 (ihstart s hs))
      by_cases hd : md ≤ cur.duration
      · rw [if_pos hd]
        constructor
        · show chordsNonOverlapping (cur :: mergeChordsRun md next rest)
          apply chordsNonOverlapping_cons _ _ ihno
          intro b hb
          have hmem : b ∈ mergeChordsRun md next rest := List.mem_of_mem_head? hb
          exact le_trans hord1 (ihstart b hmem)
        · intro s hs
          rcases List.mem_cons.mp hs with rfl | hmem
          · exact le_refl _
          · exact hout s hmem
      · rw [if_neg hd]
        constructor
        · simpa using ihno
        · intro s hs
          simp only [List.nil_append] at hs
          exact hout s hs

/-- The note-merge loop: same invariant as the chord loop (every
    accumulated note is emitted, no duration filter). -/
theorem mergeNotesRun_ordered (g : ℚ) :
    ∀ (l : List NoteSeg) (cur : NoteSeg),
      (∀ s ∈ cur :: l, s.start ≤ s.end_) →
      notesNonOverlapping (cur :: l) →
      notesNonOverlapping (mergeNotesRun g cur l) ∧
      ∀ s ∈ mergeNotesRun g cur l, cur.start ≤ s.start := by
  intro l
  induction l with
  | nil =>
    intro cur _ _
    rw [mergeNotesRun_nil]
    exact ⟨trivial, by intro s hs; rw [List.mem_singleton] at hs; subst hs; exact le_refl _⟩
  | cons next rest ih =>
    intro cur hwf hord
    obtain ⟨hord1, hord2⟩ := hord
    by_cases hm : cur.pitch_midi = next.pitch_midi ∧ |next.start - cur.end_| < g
    · rw [mergeNotesRun_cons, if_pos hm]
      have hcs : cur.start ≤ cur.end_ := hwf cur (List.mem_cons_self _ _)
      have hns : next.start ≤ next.end_ := hwf next (List.mem_cons_of_mem _ (List.mem_cons_self _ _))
      have hwf' : ∀ s ∈ (⟨cur.pitch_midi, cur.start, next.end_, next.end_ - cur.start,
          (cur.confidence + next.confidence) / 2,
          Int.fdiv (cur.velocity + next.velocity) 2⟩ : NoteSeg) :: rest, s.start ≤ s.end_ := by
        intro s hs
        rcases List.mem_cons.mp hs with rfl | hmem
        · exact le_trans hcs (le_trans hord1 hns)
        · exact hwf s (List.mem_cons_of_mem _ (List.mem_cons_of_mem _ hmem))
      have hord' : notesNonOverlapping ((⟨cur.pitch_midi, cur.start, next.end_,
          next.end_ - cur.start, (cur.confidence + next.confidence) / 2,
          Int.fdiv (cur.velocity + next.velocity) 2⟩ : NoteSeg) :: rest) := by
        cases rest with
        | nil => trivial
        | cons r t => exact ⟨hord2.1, hord2.2⟩
      exact ih _ hwf' hord'
    · rw [mergeNotesRun_cons, if_neg hm]
      have hcs : cur.start ≤ cur.end_ := hwf cur (List.mem_cons_self _ _)
      have hwf' : ∀ s ∈ next :: rest, s.start ≤ s.end_ := by
        intro s hs
        exact hwf s (List.mem_cons_of_mem _ hs)
      obtain ⟨ihno, ihstart⟩ := ih next hwf' hord2
      constructor
      · apply notesNonOverlapping_cons _ _ ihno
        intro b hb
        have hmem : b ∈ mergeNotesRun g next rest := List.mem_of_mem_head? hb
        exact le_trans hord1 (ihstart b hmem)
      · intro s hs
        rcases List.mem_cons.mp hs with rfl | hmem
        · exact le_refl _
        · exact le_trans hcs (le_trans hord1 (ihstart s hmem))

/-- C4 counterexample: on an input list that is not time-ordered
    (`A = [0,10]` followed by `B = [2,3]`), the chord merge emits both
    segments unchanged and the output violates
    `segments[i].end ≤ segments[i+1].start`, so the unconditional
    claim over every input segment list is false. -/
theorem merge_nonoverlap_unordered_input_cex :
    ¬ chordsNonOverlapping (merge_similar_chords [ocEx1, ocEx2] (1/2)) := by
  have hcond : ¬ (ocEx1.symbol = ocEx2.symbol ∧ |ocEx2.start - ocEx1.end_| < 1/10) := by
    rintro ⟨hs, -⟩
    simp [ocEx1, ocEx2] at hs
  have heval : merge_similar_chords [ocEx1, ocEx2] (1/2) = [ocEx1, ocEx2] := by
    rw [show merge_similar_chords [ocEx1, ocEx2] (1/2) = mergeChordsRun (1/2) ocEx1 [ocEx2] from rfl,
      mergeChordsRun_cons, if_neg hcond, mergeChordsRun_nil,
      if_pos (by norm_num [ocEx1] : (1/2:ℚ) ≤ ocEx1.duration),
      if_pos (by norm_num [ocEx2] : (1/2:ℚ) ≤ ocEx2.duration)]
    rfl
  rw [heval]
  rintro ⟨h1, -⟩
  norm_num [ocEx1, ocEx2] at h1

/-- C4 (amended): for every time-ordered, non-overlapping input list of
    well-formed segments (`start ≤ end`), the output of the chord merge
    and of the note merge satisfies
    `segments[i].end ≤ segments[i+1].start` for all consecutive `i`. -/
theorem merge_preserves_nonoverlap_of_ordered (chords : List ChordSeg) (notes : List NoteSeg)
    (md g : ℚ)
    (hwc : ∀ s ∈ chords, s.start ≤ s.end_) (hc : chordsNonOverlapping chords)
    (hwn : ∀ s ∈ notes, s.start ≤ s.end_) (hn : notesNonOverlapping notes) :
    chordsNonOverlapping (merge_similar_chords chords md) ∧
    notesNonOverlapping (merge_similar_notes notes g) := by
  constructor
  · cases chords with
    | nil => trivial
    | cons c rest => exact (mergeChordsRun_ordered md rest c hwc hc).1
  · cases notes with
    | nil => trivial
    | cons n rest => exact (mergeNotesRun_ordered g rest n hwn hn).1

/-- C4 witness: the amended invariant applied to concrete ordered
    chord and note lists. -/
theorem merge_preserves_nonoverlap_of_ordered_witness :
    chordsNonOverlapping (merge_similar_chords [mcEx1, mcEx2] (1/2)) ∧
    notesNonOverlapping (merge_similar_notes [⟨60, 0, 1, 1, 1, 64⟩, ⟨62, 2, 3, 1, 1, 64⟩] (1/10)) :=
  merge_preserves_nonoverlap_of_ordered [mcEx1, mcEx2] [⟨60, 0, 1, 1, 1, 64⟩, ⟨62, 2, 3, 1, 1, 64⟩]
    (1/2) (1/10)
    (by intro s hs
        rcases List.mem_cons.mp hs with rfl | hs
        · norm_num [mcEx1]
        · rcases List.mem_cons.mp hs with rfl | hs
          · norm_num [mcEx2]
          · exact absurd hs (List.not_mem_nil s))
    (by constructor
        · norm_num [mcEx1, mcEx2]
        · trivial)
    (by intro s hs
        rcases List.mem_cons.mp hs with rfl | hs
        · norm_num
        · rcases List.mem_cons.mp hs with rfl | hs
          · norm_num
          · exact absurd hs (List.not_mem_nil s))
    (by constructor
        · norm_num
        · trivial)

/-- C5 counterexample: on the frame sequence `framesEx` with window
    `0.5`s and merge minimum duration `0.5`s, threshold `0.1` yields
    ONE merged segment but the higher threshold `0.5` yields TWO
    (dropping the middle frame splits the run and both halves pass the
    duration filter), so raising the threshold increases the
    detection-plus-merge output count. -/
theorem detect_threshold_count_increase_cex :
    (1/10 : ℚ) ≤ 1/2 ∧
    (detectChromagramPipeline framesEx (1/10) (1/2) (1/2)).length = 1 ∧
    (detectChromagramPipeline framesEx (1/2) (1/2) (1/2)).length = 2 := by
  refine ⟨by norm_num, ?_, ?_⟩
  · have hdet : detect_chords_chromagram framesEx (1/10) (1/2) =
        [⟨"C", 0, 1/2, 1/2, 9/10⟩, ⟨"C", 1/2, 1, 1/2, 3/10⟩, ⟨"C", 1, 3/2, 1/2, 9/10⟩] := by
      norm_num [detect_chords_chromagram, detectFrames, framesEx]
    have hm1 : merge_similar_chords
        [(⟨"C", 0, 1/2, 1/2, 9/10⟩ : ChordSeg), ⟨"C", 1/2, 1, 1/2, 3/10⟩, ⟨"C", 1, 3/2, 1/2, 9/10⟩]
        (1/2) = [⟨"C", 0, 3/2, 3/2, 3/4⟩] := by
      rw [show merge_similar_chords
          [(⟨"C", 0, 1/2, 1/2, 9/10⟩ : ChordSeg), ⟨"C", 1/2, 1, 1/2, 3/10⟩, ⟨"C", 1, 3/2, 1/2, 9/10⟩]
          (1/2) = mergeChordsRun (1/2) ⟨"C", 0, 1/2, 1/2, 9/10⟩
            [⟨"C", 1/2, 1, 1/2, 3/10⟩, ⟨"C", 1, 3/2, 1/2, 9/10⟩] from rfl,
        mergeChordsRun_cons,
        if_pos (by refine ⟨rfl, ?_⟩
                   rw [abs_lt]
                   constructor <;> norm_num)]
      rw [mergeChordsRun_cons,
        if_pos (by refine ⟨rfl, ?_⟩
                   rw [abs_lt]
                   constructor <;> norm_num)]
      rw [mergeChordsRun_nil, if_pos (by norm_num)]
      norm_num
    rw [show detectChromagramPipeline framesEx (1/10) (1/2) (1/2) =
        merge_similar_chords (detect_chords_chromagram framesEx (1/10) (1/2)) (1/2) from rfl,
      hdet, hm1]
    rfl
  · have hdet : detect_chords_chromagram framesEx (1/2) (1/2) =
        [⟨"C", 0, 1/2, 1/2, 9/10⟩, ⟨"C", 1, 3/2, 1/2, 9/10⟩] := by
      norm_num [detect_chords_chromagram, detectFrames, framesEx]
    have hm2 : merge_similar_chords
        [(⟨"C", 0, 1/2, 1/2, 9/10⟩ : ChordSeg), ⟨"C", 1, 3/2, 1/2, 9/10⟩] (1/2) =
        [⟨"C", 0, 1/2, 1/2, 9/10⟩, ⟨"C", 1, 3/2, 1/2, 9/10⟩] := by
      rw [show merge_similar_chords
          [(⟨"C", 0, 1/2, 1/2, 9/10⟩ : ChordSeg), ⟨"C", 1, 3/2, 1/2, 9/10⟩] (1/2) =
          mergeChordsRun (1/2) ⟨"C", 0, 1/2, 1/2, 9/10⟩ [⟨"C", 1, 3/2, 1/2, 9/10⟩] from rfl,
        mergeChordsRun_cons,
        if_neg (by rintro ⟨-, habs⟩
                   rw [abs_lt] at habs
                   norm_num at habs),
        mergeChordsRun_nil, if_pos (by norm_num), if_pos (by norm_num)]
      rfl
    rw [show detectChromagramPipeline framesEx (1/2) (1/2) (1/2) =
        merge_similar_chords (detect_chords_chromagram framesEx (1/2) (1/2)) (1/2) from rfl,
      hdet, hm2]
    rfl

/-- The frame filter is antitone in the confidence threshold for any
    starting frame index. -/
theorem detectFrames_length_antitone (ws t1 t2 : ℚ) (h : t1 ≤ t2) :
    ∀ (l : List (String × ℚ)) (i : ℕ),
      (detectFrames t2 ws i l).length ≤ (detectFrames t1 ws i l).length := by
  intro l
  induction l with
  | nil => intro i; exact le_refl _
  | cons p rest ih =>
    intro i
    obtain ⟨sym, conf⟩ := p
    simp only [detectFrames, List.length_append]
    have hih := ih (i + 1)
    by_cases h2 : t2 ≤ conf
    · rw [if_pos h2, if_pos (le_trans h h2)]
      simp only [List.length_singleton]
      omega
    · rw [if_neg h2]
      by_cases h1 : t1 ≤ conf
      · rw [if_pos h1]
        simp only [List.length_singleton, List.length_nil]
        omega
      · rw [if_neg h1]
        simp only [List.length_nil]
        omega

/-- C5 (amended): monotonicity holds for the confidence-filter stage of
    `_detect_chords_chromagram` — for thresholds `t1 ≤ t2`, the number
    of per-frame segments produced before merging at `t2` is at most
    the number at `t1`.  (After `_merge_similar_chords` the count can
    increase, see the counterexample.) -/
theorem detect_filter_threshold_antitone (frames : List (String × ℚ)) (t1 t2 ws : ℚ)
    (h : t1 ≤ t2) :
    (detect_chords_chromagram frames t2 ws).length ≤
      (detect_chords_chromagram frames t1 ws).length :=
  detectFrames_length_antitone ws t1 t2 h frames 0

/-- C5 witness: the filter-stage antitonicity applied at the concrete
    frame list and thresholds `0.1 ≤ 0.5`. -/
theorem detect_filter_threshold_antitone_witness :
    (1/10 : ℚ) ≤ 1/2 ∧
    (detect_chords_chromagram framesEx (1/2) (1/2)).length ≤
      (detect_chords_chromagram framesEx (1/10) (1/2)).length :=
  ⟨by norm_num, detect_filter_threshold_antitone framesEx (1/10) (1/2) (1/2) (by norm_num)⟩

/-- C9 counterexample: for the Basic Pitch event `evEx` (amplitude
    `0.5`, so confidence `min(1, 0.5/0.5) = 1.0`) the emitted note has
    velocity `int(amplitude*127) = 63`, while the claimed
    `round(confidence*127)` is `127`. -/
theorem melody_velocity_not_round_cex :
    (extract_melody_basic_pitch defaultMelodyCfg [evEx]).map
        (fun n => (n.velocity, n.confidence)) = [(63, 1)] ∧
    round ((1 : ℚ) * 127) = 127 ∧ ((63 : ℤ) ≠ 127) := by
  refine ⟨?_, by norm_num [round_eq], by norm_num⟩
  norm_num [extract_melody_basic_pitch, defaultMelodyCfg, evEx, pyInt, min_def,
    List.filterMap_cons, List.filterMap_nil]

/-- Every note emitted by the CREPE close step carries
    `velocity = int(confidence * 127)` for its own stored confidence. -/
theorem crepeClose_velocity (cfg : MelodyCfg) (c : CrepeCur) (t : ℚ) :
    ∀ n ∈ crepeClose cfg c t, n.velocity = pyInt (n.confidence * 127) := by
  intro n hn
  unfold crepeClose at hn
  split at hn
  · rw [List.mem_singleton] at hn
    subst hn
    rfl
  · exact absurd hn (List.not_mem_nil n)

/-- Every note emitted by the CREPE frame loop carries
    `velocity = int(confidence * 127)`. -/
theorem crepeLoop_velocity (cfg : MelodyCfg) (tLast : ℚ) :
    ∀ (l : List (ℚ × ℤ × ℚ)) (cur : Option CrepeCur),
      ∀ n ∈ crepeLoop cfg tLast cur l, n.velocity = pyInt (n.confidence * 127) := by
  intro l
  induction l with
  | nil =>
    intro cur n hn
    cases cur with
    | none => exact absurd hn (List.not_mem_nil n)
    | some c => exact crepeClose_velocity cfg c tLast n hn
  | cons f rest ih =>
    intro cur n hn
    obtain ⟨t, midi, conf⟩ := f
    simp only [crepeLoop] at hn
    split at hn
    · split at hn
      · exact ih _ n hn
      · split at hn
        · rcases List.mem_append.mp hn with h | h
          · exact crepeClose_velocity cfg _ _ n h
          · exact ih _ n h
        · exact ih _ n hn
    · split at hn
      · rcases List.mem_append.mp hn with h | h
        · exact crepeClose_velocity cfg _ _ n h
        · exact ih _ n h
      · exact ih _ n hn

/-- C9 (amended): every note emitted by the Basic Pitch path has
    confidence derived from amplitude by linear normalization against
    the empirical ceiling `0.5` capped at `1.0`, and MIDI velocity
    `int(amplitude * 127)` (truncation of the raw amplitude, not
    `round(confidence * 127)`); every note emitted by the CREPE path
    has MIDI velocity `int(confidence * 127)` (truncation, not
    rounding). -/
theorem melody_velocity_truncation (cfg : MelodyCfg) (events : List NoteEvent)
    (frames : List (ℚ × ℤ × ℚ)) :
    (∀ n ∈ extract_melody_basic_pitch cfg events, ∃ e ∈ events,
        n.pitch_midi = e.pitch ∧ n.confidence = min 1 (e.amplitude / (1/2)) ∧
        n.velocity = pyInt (e.amplitude * 127)) ∧
    (∀ n ∈ extract_melody_crepe cfg frames, n.velocity = pyInt (n.confidence * 127)) := by
  constructor
  · intro n hn
    simp only [extract_melody_basic_pitch, List.mem_filterMap] at hn
    obtain ⟨e, he, heq⟩ := hn
    refine ⟨e, he, ?_⟩
    split at heq
    · split at heq
      · split at heq
        · rw [Option.some_inj] at heq
          subst heq
          exact ⟨rfl, rfl, rfl⟩
        · exact absurd heq (by simp)
      · exact absurd heq (by simp)
    · exact absurd heq (by simp)
  · intro n hn
    exact crepeLoop_velocity cfg _ frames none n hn

/-- C9 witness: the amended theorem applied to the concrete event
    `evEx`, whose emitted note is `noteEvEx`. -/
theorem melody_velocity_truncation_witness :
    noteEvEx ∈ extract_melody_basic_pitch defaultMelodyCfg [evEx] ∧
    ∃ e ∈ [evEx], noteEvEx.pitch_midi = e.pitch ∧
      noteEvEx.confidence = min 1 (e.amplitude / (1/2)) ∧
      noteEvEx.velocity = pyInt (e.amplitude * 127) :=
  ⟨by norm_num [extract_melody_basic_pitch, defaultMelodyCfg, evEx, noteEvEx, pyInt, min_def,
      List.filterMap_cons, List.filterMap_nil],
   (melody_velocity_truncation defaultMelodyCfg [evEx] []).1 noteEvEx
     (by norm_num [extract_melody_basic_pitch, defaultMelodyCfg, evEx, noteEvEx, pyInt, min_def,
        List.filterMap_cons, List.filterMap_nil])⟩

/-- The repair does not cascade: repairing a repaired word changes
    nothing. -/
theorem repairWord_idem (w : JsonExporter.EWord) :
    JsonExporter.repairWord (JsonExporter.repairWord w) = JsonExporter.repairWord w := by
  unfold JsonExporter.repairWord
  by_cases h : w.start = w.end_
  · rw [if_pos h]
    have hne : ¬ ({ w with end_ := w.start + 1/100 } : JsonExporter.EWord).start =
        ({ w with end_ := w.start + 1/100 } : JsonExporter.EWord).end_ := by
      show ¬ w.start = w.start + 1/100
      simp only [self_eq_add_right]
      norm_num
    rw [if_neg hne]
  · rw [if_neg h, if_neg h]

/-- The repair keeps `start ≤ end`. -/
theorem repairWord_start_le (w : JsonExporter.EWord) (h : w.start ≤ w.end_) :
    (JsonExporter.repairWord w).start ≤ (JsonExporter.repairWord w).end_ := by
  unfold JsonExporter.repairWord
  by_cases he : w.start = w.end_
  · rw [if_pos he]
    show w.start ≤ w.start + 1/100
    linarith
  · rw [if_neg he]
    exact h

/-- On a word list whose entries all satisfy `start ≤ end`, the
    validation loop succeeds and repairs exactly the zero-duration
    words. -/
theorem validateWords_ok (l : List JsonExporter.EWord)
    (h : ∀ w ∈ l, w.start ≤ w.end_) :
    JsonExporter.validateWords l = (true, l.map JsonExporter.repairWord) := by
  induction l with
  | nil => rfl
  | cons w rest ih =>
    have hw := h w (List.mem_cons_self _ _)
    have hrest := ih fun x hx => h x (List.mem_cons_of_mem _ hx)
    simp only [JsonExporter.validateWords]
    rw [if_neg (not_lt.mpr hw)]
    by_cases heq : w.start = w.end_
    · rw [if_pos heq, hrest]
      simp [JsonExporter.repairWord, heq]
    · rw [if_neg heq, hrest]
      simp [JsonExporter.repairWord, heq]

/-- C8: Timing repair applied exactly once — on a well-formed document
    (required metadata present, every word with `start ≤ end`),
    `_validate_song_data` succeeds, bumping the `end` of each word with
    `start == end` to `start + 0.01`; running the validation again on
    the repaired document changes nothing; a word with `start = end`
    gets exactly the `+0.01` bump and a word with `start < end` is
    never modified. -/
theorem validate_timing_repair_once (d : JsonExporter.ESong)
    (hm : JsonExporter.metadataOk d = true)
    (hw : ∀ w ∈ d.words, w.start ≤ w.end_) :
    JsonExporter.validate_song_data d =
      (true, { d with words := d.words.map JsonExporter.repairWord }) ∧
    JsonExporter.validate_song_data { d with words := d.words.map JsonExporter.repairWord } =
      (true, { d with words := d.words.map JsonExporter.repairWord }) ∧
    (∀ w : JsonExporter.EWord, w.start = w.end_ →
      JsonExporter.repairWord w = { w with end_ := w.start + 1/100 }) ∧
    (∀ w : JsonExporter.EWord, w.start < w.end_ → JsonExporter.repairWord w = w) := by
  have hmain : JsonExporter.validate_song_data d =
      (true, { d with words := d.words.map JsonExporter.repairWord }) := by
    unfold JsonExporter.validate_song_data
    rw [if_pos hm, validateWords_ok d.words hw]
  refine ⟨hmain, ?_, ?_, ?_⟩
  · unfold JsonExporter.validate_song_data
    have hm' : JsonExporter.metadataOk { d with words := d.words.map JsonExporter.repairWord } = true := hm
    rw [if_pos hm']
    have hw' : ∀ w ∈ d.words.map JsonExporter.repairWord, w.start ≤ w.end_ := by
      intro w hwmem
      obtain ⟨x, hx, rfl⟩ := List.mem_map.mp hwmem
      exact repairWord_start_le x (hw x hx)
    rw [validateWords_ok _ hw']
    have : (d.words.map JsonExporter.repairWord).map JsonExporter.repairWord =
        d.words.map JsonExporter.repairWord := by
      rw [List.map_map]
      exact List.map_congr_left fun x _ => repairWord_idem x
    rw [this]
  · intro w hweq
    unfold JsonExporter.repairWord
    rw [if_pos hweq]
  · intro w hwlt
    unfold JsonExporter.repairWord
    rw [if_neg (ne_of_lt hwlt)]

/-- C8 witness: the repair theorem applied to a concrete document with
    one zero-duration word. -/
theorem validate_timing_repair_once_witness :
    JsonExporter.validate_song_data dEx =
      (true, { dEx with words := dEx.words.map JsonExporter.repairWord }) :=
  (validate_timing_repair_once dEx (by decide)
    (by intro w hwmem
        rcases List.mem_singleton.mp hwmem with rfl
        norm_num)).1

/-- C10: the exporter's schema validation mutates the caller's document
    in place — with `validate_schema` enabled (the default), `export()`
    leaves the caller's document equal to the original with exactly the
    `end` fields of zero-duration words overwritten by `start + 0.01`
    (all other fields untouched); a word with `start = end` gets the
    bump, any other word is unchanged, and with validation disabled the
    document is untouched. -/
theorem export_mutates_caller_document (d : JsonExporter.ESong)
    (hm : JsonExporter.metadataOk d = true)
    (hw : ∀ w ∈ d.words, w.start ≤ w.end_) :
    JsonExporter.export_ true d =
      (true, { d with words := d.words.map JsonExporter.repairWord }) ∧
    (∀ w : JsonExporter.EWord, w.start = w.end_ →
      JsonExporter.repairWord w = { w with end_ := w.start + 1/100 }) ∧
    (∀ w : JsonExporter.EWord, ¬ w.start = w.end_ → JsonExporter.repairWord w = w) ∧
    JsonExporter.export_ false d = (true, d) := by
  have hval : JsonExporter.validate_song_data d =
      (true, { d with words := d.words.map JsonExporter.repairWord }) := by
    unfold JsonExporter.validate_song_data
    rw [if_pos hm, validateWords_ok d.words hw]
  refine ⟨?_, ?_, ?_, rfl⟩
  · unfold JsonExporter.export_
    rw [if_pos rfl, hval]
  · intro w hweq
    unfold JsonExporter.repairWord
    rw [if_pos hweq]
  · intro w hwne
    unfold JsonExporter.repairWord
    rw [if_neg hwne]

/-- C10 witness: the export mutation theorem applied to a concrete
    document with a positive-duration word. -/
theorem export_mutates_caller_document_witness :
    JsonExporter.export_ true dEx2 =
      (true, { dEx2 with words := dEx2.words.map JsonExporter.repairWord }) :=
  (export_mutates_caller_document dEx2 (by decide)
    (by intro w hwmem
        rcases List.mem_singleton.mp hwmem with rfl
        norm_num)).1

/-- Mapping a function that fixes every member of a list is the
    identity on that list. -/
theorem list_map_id_of_mem {α : Type} (l : List α) (f : α → α) (h : ∀ x ∈ l, f x = x) :
    l.map f = l := by
  induction l with
  | nil => rfl
  | cons a t ih =>
    rw [List.map_cons, h a (List.mem_cons_self _ _),
      ih fun x hx => h x (List.mem_cons_of_mem _ hx)]

/-- Chord records survive the export/import round trip unchanged. -/
theorem chord_roundtrip (c : Importer.ChordData) :
    Importer.parse_chord_data (Importer.exportChord c) = c := by
  cases c
  rfl

/-- Note records survive the round trip when their optional fields are
    not Python-falsy (`velocity ≠ 0`, `pitch_name ≠ ''`). -/
theorem note_roundtrip (n : Importer.NoteData)
    (h1 : n.velocity ≠ some 0) (h2 : n.pitch_name ≠ some "") :
    Importer.parse_note_data (Importer.exportNote n) = n := by
  obtain ⟨pm, pn, s, e, v, conf⟩ := n
  simp only [Importer.exportNote, Importer.parse_note_data]
  have hpn : (if Importer.pyTruthyStr pn then pn else none) = pn := by
    cases pn with
    | none => rfl
    | some str =>
      have : str ≠ "" := fun hstr => h2 (by rw [hstr])
      simp [Importer.pyTruthyStr, this]
  have hv : (if Importer.pyTruthyInt v then v else none) = v := by
    cases v with
    | none => rfl
    | some k =>
      have : k ≠ 0 := fun hk => h1 (by rw [hk])
      simp [Importer.pyTruthyInt, this]
  rw [hpn, hv]

/-- Word records with no chord/alternative annotations survive the
    round trip unchanged (import always clears `chord` and regenerates
    the alternative fields). -/
theorem word_roundtrip (w : Importer.WordRow)
    (h : w.chord = none ∧ w.alt_text = none ∧ w.alt_chord = none ∧
      w.alt_start = some w.start ∧ w.alt_end = some w.end_ ∧ w.line_break = false) :
    Importer.convertToWordRow (Importer.exportWord w) = w := by
  obtain ⟨text, start, end_, conf, chord, alt_text, alt_chord, alt_start, alt_end, lb⟩ := w
  obtain ⟨h1, h2, h3, h4, h5, h6⟩ := h
  simp only at h1 h2 h3 h4 h5 h6
  subst h1; subst h2; subst h3; subst h4; subst h5; subst h6
  rfl

/-- C6 counterexample: a document whose single word carries chord `"C"`
    round-trips through `export_song_data` / `import_song_data` into a
    word with `chord = None` — the word list's field values are not
    reproduced. -/
theorem roundtrip_drops_word_chord_cex :
    sdCex.words.map Importer.WordRow.chord = [some "C"] ∧
    (Importer.import_song_data (Importer.export_song_data sdCex)).map
      (fun s => s.words.map Importer.WordRow.chord) = some [none] := by
  exact ⟨rfl, rfl⟩

/-- C6 (amended): exporting and re-importing reproduces the words,
    chords and notes lists exactly, provided the words carry no
    chord/alternative annotations (import clears `chord` — it is to be
    re-attached from the chords list — and rebuilds the alternative
    fields from the word's own timing) and the notes have no
    Python-falsy optional fields (`velocity = 0` or `pitch_name = ''`
    are dropped by export). -/
theorem roundtrip_preserves_core_lists (sd : Importer.SongData)
    (hm : Importer.hasRequiredMetadata sd.metadata = true)
    (hw : ∀ w ∈ sd.words, w.chord = none ∧ w.alt_text = none ∧ w.alt_chord = none ∧
      w.alt_start = some w.start ∧ w.alt_end = some w.end_ ∧ w.line_break = false)
    (hn : ∀ n ∈ sd.notes, n.velocity ≠ some 0 ∧ n.pitch_name ≠ some "") :
    ∃ sd', Importer.import_song_data (Importer.export_song_data sd) = some sd' ∧
      sd'.words = sd.words ∧ sd'.chords = sd.chords ∧ sd'.notes = sd.notes := by
  have hv : Importer.validateFile (Importer.export_song_data sd) = true := hm
  unfold Importer.import_song_data
  rw [if_pos hv]
  refine ⟨_, rfl, ?_, ?_, ?_⟩
  · show ((sd.words.map Importer.exportWord).map Importer.convertToWordRow) = sd.words
    rw [List.map_map]
    exact list_map_id_of_mem _ _ fun w hwmem => word_roundtrip w (hw w hwmem)
  · show ((sd.chords.map Importer.exportChord).map Importer.parse_chord_data) = sd.chords
    rw [List.map_map]
    exact list_map_id_of_mem _ _ fun c _ => chord_roundtrip c
  · show ((sd.notes.map Importer.exportNote).map Importer.parse_note_data) = sd.notes
    rw [List.map_map]
    exact list_map_id_of_mem _ _ fun n hnmem => note_roundtrip n (hn n hnmem).1 (hn n hnmem).2

/-- C6 witness: the amended round trip applied to a concrete document
    with one word, one chord and one note. -/
theorem roundtrip_preserves_core_lists_witness :
    ∃ sd', Importer.import_song_data (Importer.export_song_data sdW) = some sd' ∧
      sd'.words = sdW.words ∧ sd'.chords = sdW.chords ∧ sd'.notes = sdW.notes :=
  roundtrip_preserves_core_lists sdW (by decide)
    (by intro w hwmem
        rcases List.mem_singleton.mp hwmem with rfl
        exact ⟨rfl, rfl, rfl, rfl, rfl, rfl⟩)
    (by intro n hnmem
        rcases List.mem_singleton.mp hnmem with rfl
        refine ⟨fun h => ?_, fun h => ?_⟩
        · simp at h
        · simp at h)

end SongEditor
